import Mathlib

/-!
# Verification of the vetkd-devkit KeyManager access-control core

Shallow embedding of the `KeyManager` access-control broker from
`dfinity/vetkd-devkit`, covering:

* the generic backend library `src/backend/rs/ic_vetkeys/src/key_manager/mod.rs`
  (polymorphic over an access-control trait `T : AccessControl`),
* the concrete permission type `AccessRights` from
  `src/backend/ic_vetkeys/src/types.rs`,
* the older cdk variant `src/cdk/key_manager/src/lib.rs`
  (concrete at `AccessRights`, process-wide singleton with `try_init`),
* the derivation-input encoding `key_id_to_vetkd_input`,
* the write path of the layered `EncryptedMaps` value store (modelled from the
  spec and the tests in `src/cdk/encrypted_maps/tests/tests.rs`).

Stable BTree maps are modelled as association lists with map semantics
(`mapGet` / `mapInsert` / `mapRemove`); `candid::Principal` and key names are
opaque byte strings, modelled as `List Nat`.
-/

namespace VetKD

/-- An opaque principal identifier (`candid::Principal`), a byte string. -/
abbrev Principal := List Nat

/-- A key name (`Blob<32>` in the source), an opaque byte string. -/
abbrev KeyName := List Nat

/-- `pub type KeyId = (Owner, KeyName)`; the first component is the owner. -/
abbrev KeyId := Principal × KeyName

/-- `pub enum AccessRights { Read = 0, ReadWrite = 1, ReadWriteManage = 2 }`
from `src/backend/ic_vetkeys/src/types.rs`. -/
inductive AccessRights where
  | Read
  | ReadWrite
  | ReadWriteManage
deriving DecidableEq, Repr

/-- `AccessRights::can_read`: `matches!(self, Read | ReadWrite | ReadWriteManage)`. -/
def AccessRights.can_read : AccessRights → Bool
  | .Read => true
  | .ReadWrite => true
  | .ReadWriteManage => true

/-- `AccessRights::can_write`: `matches!(self, ReadWrite | ReadWriteManage)`. -/
def AccessRights.can_write : AccessRights → Bool
  | .Read => false
  | .ReadWrite => true
  | .ReadWriteManage => true

/-- `AccessRights::can_get_user_rights`: `matches!(self, ReadWriteManage)`. -/
def AccessRights.can_get_user_rights : AccessRights → Bool
  | .ReadWriteManage => true
  | _ => false

/-- `AccessRights::can_set_user_rights`: `matches!(self, ReadWriteManage)`. -/
def AccessRights.can_set_user_rights : AccessRights → Bool
  | .ReadWriteManage => true
  | _ => false

/-- `AccessRights::owner_rights() = ReadWriteManage`. -/
def AccessRights.owner_rights : AccessRights := .ReadWriteManage

/-- The `AccessControl` trait of `src/backend/ic_vetkeys/src/types.rs`,
as a record of the capability predicates plus the owner level. -/
structure AccessControlImpl (T : Type) where
  can_read : T → Bool
  can_write : T → Bool
  can_get_user_rights : T → Bool
  can_set_user_rights : T → Bool
  owner_rights : T

/-- The `impl AccessControl for AccessRights` instance. -/
def AccessRights.impl : AccessControlImpl AccessRights :=
  { can_read := AccessRights.can_read
    can_write := AccessRights.can_write
    can_get_user_rights := AccessRights.can_get_user_rights
    can_set_user_rights := AccessRights.can_set_user_rights
    owner_rights := AccessRights.owner_rights }

/-- Lookup in an association-list model of `StableBTreeMap`. -/
def mapGet {α β : Type} [DecidableEq α] : List (α × β) → α → Option β
  | [], _ => none
  | e :: rest, k => if e.1 = k then some e.2 else mapGet rest k

/-- Insert (replacing any previous binding), modelling `StableBTreeMap::insert`. -/
def mapInsert {α β : Type} [DecidableEq α] (m : List (α × β)) (k : α) (v : β) :
    List (α × β) :=
  (k, v) :: m.filter (fun e => decide (e.1 ≠ k))

/-- Removal, modelling `StableBTreeMap::remove`. -/
def mapRemove {α β : Type} [DecidableEq α] (m : List (α × β)) (k : α) :
    List (α × β) :=
  m.filter (fun e => decide (e.1 ≠ k))

/-- The generic broker state, `pub struct KeyManager<T: AccessControl>` of
`src/backend/rs/ic_vetkeys/src/key_manager/mod.rs`:
a domain separator cell plus the two stable maps. -/
structure KeyManagerState (T : Type) where
  domain_separator : String
  access_control : List ((Principal × KeyId) × T)
  shared_keys : List ((KeyId × Principal) × Unit)
deriving DecidableEq

/-- `KeyManager::init` on fresh memories: empty maps, the given separator. -/
def KeyManager.init (T : Type) (domain_separator : String) : KeyManagerState T :=
  { domain_separator := domain_separator, access_control := [], shared_keys := [] }

/-- `KeyManager::ensure_user_can_read`: owner short-circuit to
`T::owner_rights()`, else table lookup guarded by `can_read`. -/
def ensure_user_can_read {T : Type} (AC : AccessControlImpl T)
    (km : KeyManagerState T) (user : Principal) (key_id : KeyId) :
    Except String T :=
  if user = key_id.1 then .ok AC.owner_rights
  else
    match mapGet km.access_control (user, key_id) with
    | some access_rights =>
        if AC.can_read access_rights then .ok access_rights
        else .error "unauthorized"
    | none => .error "unauthorized"

/-- `KeyManager::ensure_user_can_write`. -/
def ensure_user_can_write {T : Type} (AC : AccessControlImpl T)
    (km : KeyManagerState T) (user : Principal) (key_id : KeyId) :
    Except String T :=
  if user = key_id.1 then .ok AC.owner_rights
  else
    match mapGet km.access_control (user, key_id) with
    | some access_rights =>
        if AC.can_write access_rights then .ok access_rights
        else .error "unauthorized"
    | none => .error "unauthorized"

/-- `KeyManager::ensure_user_can_get_user_rights`. -/
def ensure_user_can_get_user_rights {T : Type} (AC : AccessControlImpl T)
    (km : KeyManagerState T) (user : Principal) (key_id : KeyId) :
    Except String T :=
  if user = key_id.1 then .ok AC.owner_rights
  else
    match mapGet km.access_control (user, key_id) with
    | some access_rights =>
        if AC.can_get_user_rights access_rights then .ok access_rights
        else .error "unauthorized"
    | none => .error "unauthorized"

/-- `KeyManager::ensure_user_can_set_user_rights`. -/
def ensure_user_can_set_user_rights {T : Type} (AC : AccessControlImpl T)
    (km : KeyManagerState T) (user : Principal) (key_id : KeyId) :
    Except String T :=
  if user = key_id.1 then .ok AC.owner_rights
  else
    match mapGet km.access_control (user, key_id) with
    | some access_rights =>
        if AC.can_set_user_rights access_rights then .ok access_rights
        else .error "unauthorized"
    | none => .error "unauthorized"

/-- `KeyManager::set_user_rights`, returning the Rust result together with the
post state (the Rust method mutates `&mut self`). On success the previous
table entry is returned, as `StableBTreeMap::insert` does. -/
def set_user_rights {T : Type} (AC : AccessControlImpl T)
    (km : KeyManagerState T) (caller : Principal) (key_id : KeyId)
    (user : Principal) (access_rights : T) :
    Except String (Option T) × KeyManagerState T :=
  match ensure_user_can_set_user_rights AC km caller key_id with
  | .error e => (.error e, km)
  | .ok _ =>
      if caller = key_id.1 ∧ caller = user then
        (.error "cannot change key owner's user rights", km)
      else
        (.ok (mapGet km.access_control (user, key_id)),
         { km with
             shared_keys := mapInsert km.shared_keys (key_id, user) ()
             access_control := mapInsert km.access_control (user, key_id) access_rights })

/-- `KeyManager::remove_user`, returning the Rust result together with the
post state. `StableBTreeMap::remove` returns the removed value. -/
def remove_user {T : Type} (AC : AccessControlImpl T)
    (km : KeyManagerState T) (caller : Principal) (key_id : KeyId)
    (user : Principal) :
    Except String (Option T) × KeyManagerState T :=
  match ensure_user_can_set_user_rights AC km caller key_id with
  | .error e => (.error e, km)
  | .ok _ =>
      if caller = user ∧ caller = key_id.1 then
        (.error "cannot remove key owner", km)
      else
        (.ok (mapGet km.access_control (user, key_id)),
         { km with
             shared_keys := mapRemove km.shared_keys (key_id, user)
             access_control := mapRemove km.access_control (user, key_id) })

/-- `KeyManager::get_user_rights`. -/
def get_user_rights {T : Type} (AC : AccessControlImpl T)
    (km : KeyManagerState T) (caller : Principal) (key_id : KeyId)
    (user : Principal) : Except String (Option T) :=
  match ensure_user_can_get_user_rights AC km caller key_id with
  | .error e => .error e
  | .ok _ => .ok (ensure_user_can_read AC km user key_id).toOption

/-- `KeyManager::get_shared_user_access_for_key`. The `range .. take_while`
scan of the sorted `shared_keys` map collects exactly the entries whose first
key component equals `key_id`; here that is a filter over the association
list. The Rust `expect("always some access rights")` traps; the trap is
modelled as the distinguished error string `"trap: always some access
rights"`. -/
def get_shared_user_access_for_key {T : Type} (AC : AccessControlImpl T)
    (km : KeyManagerState T) (caller : Principal) (key_id : KeyId) :
    Except String (List (Principal × T)) :=
  match ensure_user_can_get_user_rights AC km caller key_id with
  | .error e => .error e
  | .ok _ =>
      let users := (km.shared_keys.filter
        (fun e => decide (e.1.1 = key_id))).map (fun e => e.1.2)
      users.mapM (fun user =>
        match get_user_rights AC km caller key_id user with
        | .error e => .error e
        | .ok (some access_rights) => .ok (user, access_rights)
        | .ok none => .error "trap: always some access rights")

/-- `VetKDCurve` (backend `vetkd_api_types`). -/
inductive VetKDCurve where
  | Bls12_381_G2
deriving DecidableEq, Repr

/-- `VetKDKeyId`. -/
structure VetKDKeyId where
  curve : VetKDCurve
  name : String
deriving DecidableEq, Repr

/-- `bls12_381_test_key_1()`. -/
def bls12_381_test_key_1 : VetKDKeyId :=
  { curve := .Bls12_381_G2, name := "insecure_test_key_1" }

/-- `VetKDDeriveKeyRequest`: the payload handed to the asynchronous
`vetkd_derive_key` management-canister call. The `context` field holds the
domain separator string (its byte serialization in the source). -/
structure VetKDDeriveKeyRequest where
  input : List Nat
  context : String
  key_id : VetKDKeyId
  transport_public_key : List Nat
deriving DecidableEq, Repr

/-- `key_id_to_vetkd_input`: one length byte (`len as u8`, i.e. mod 256),
then the principal bytes, then the raw key-name bytes. -/
def key_id_to_vetkd_input (principal : Principal) (key_name : List Nat) :
    List Nat :=
  (principal.length % 256) :: (principal ++ key_name)

/-- `KeyManager::get_encrypted_vetkey`. The Rust method takes `&self`,
synchronously runs the read check, then constructs the request and issues the
asynchronous call; we return the constructed request (`ok` means the request
is issued, `error` means no request was built) together with the unchanged
state, making the frame condition explicit. -/
def get_encrypted_vetkey {T : Type} (AC : AccessControlImpl T)
    (km : KeyManagerState T) (caller : Principal) (key_id : KeyId)
    (transport_key : List Nat) :
    Except String VetKDDeriveKeyRequest × KeyManagerState T :=
  match ensure_user_can_read AC km caller key_id with
  | .error e => (.error e, km)
  | .ok _ =>
      (.ok { input := key_id_to_vetkd_input key_id.1 key_id.2
             context := km.domain_separator
             key_id := bls12_381_test_key_1
             transport_public_key := transport_key }, km)

/-- One mutating broker call, for reachability statements. -/
inductive Op (T : Type) where
  | setUserRights (caller : Principal) (key_id : KeyId) (user : Principal)
      (access_rights : T)
  | removeUser (caller : Principal) (key_id : KeyId) (user : Principal)

/-- Apply one call to the state, discarding the returned value. -/
def applyOp {T : Type} (AC : AccessControlImpl T)
    (km : KeyManagerState T) : Op T → KeyManagerState T
  | .setUserRights caller key_id user access_rights =>
      (set_user_rights AC km caller key_id user access_rights).2
  | .removeUser caller key_id user =>
      (remove_user AC km caller key_id user).2

/-- Run a sequence of mutating calls from a given state. -/
def runOps {T : Type} (AC : AccessControlImpl T)
    (ops : List (Op T)) (km : KeyManagerState T) : KeyManagerState T :=
  ops.foldl (applyOp AC) km

/-- The cdk broker state, `pub struct KeyManager` of
`src/cdk/key_manager/src/lib.rs` (concrete at `AccessRights`, no domain
separator cell). -/
structure CdkKeyManager where
  access_control : List ((Principal × KeyId) × AccessRights)
  shared_keys : List ((KeyId × Principal) × Unit)
deriving DecidableEq

/-- `MemoryInitializationError` (from the `ic_vetkd_cdk_types` crate), as
used by `KeyManager::try_init`. -/
inductive MemoryInitializationError where
  | AlreadyInitialized
deriving DecidableEq, Repr

/-- `KeyManager::try_init` of the cdk: the process-wide singleton cell
(`KEY_MANAGER`, initially `None`) is set at most once; a second call returns
`AlreadyInitialized` and leaves the cell untouched. Fresh stable memories
initialize to empty maps. -/
def try_init (cell : Option CdkKeyManager) :
    Except MemoryInitializationError Unit × Option CdkKeyManager :=
  match cell with
  | some km => (.error .AlreadyInitialized, some km)
  | none => (.ok (), some { access_control := [], shared_keys := [] })

/-- cdk `ensure_user_can_read`: owner short-circuit to `ReadWriteManage`,
else any stored table entry is accepted (no capability predicate is
applied). -/
def cdk_ensure_user_can_read (km : CdkKeyManager) (user : Principal)
    (key_id : KeyId) : Except String AccessRights :=
  if user = key_id.1 then .ok .ReadWriteManage
  else
    match mapGet km.access_control (user, key_id) with
    | some access_rights => .ok access_rights
    | none => .error "unauthorized"

/-- cdk `ensure_user_can_manage`: owner short-circuit, else the stored entry
must equal `ReadWriteManage`. -/
def cdk_ensure_user_can_manage (km : CdkKeyManager) (user : Principal)
    (key_id : KeyId) : Except String AccessRights :=
  if user = key_id.1 then .ok .ReadWriteManage
  else
    match mapGet km.access_control (user, key_id) with
    | some access_rights =>
        if access_rights = .ReadWriteManage then .ok access_rights
        else .error "unauthorized"
    | none => .error "unauthorized"

/-- cdk `get_user_rights`: gated on the read check (not the manage check). -/
def cdk_get_user_rights (km : CdkKeyManager) (caller : Principal)
    (key_id : KeyId) (user : Principal) : Except String (Option AccessRights) :=
  match cdk_ensure_user_can_read km caller key_id with
  | .error e => .error e
  | .ok _ => .ok (cdk_ensure_user_can_read km user key_id).toOption

/-- cdk `get_shared_user_access_for_key`: gated on `ensure_user_can_read`
(not on the manage/get-rights check). Range scan and trap modelled as in the
generic version. -/
def cdk_get_shared_user_access_for_key (km : CdkKeyManager)
    (caller : Principal) (key_id : KeyId) :
    Except String (List (Principal × AccessRights)) :=
  match cdk_ensure_user_can_read km caller key_id with
  | .error e => .error e
  | .ok _ =>
      let users := (km.shared_keys.filter
        (fun e => decide (e.1.1 = key_id))).map (fun e => e.1.2)
      users.mapM (fun user =>
        match cdk_get_user_rights km caller key_id user with
        | .error e => .error e
        | .ok (some access_rights) => .ok (user, access_rights)
        | .ok none => .error "trap: always some access rights")

/-- The layered value store. The `EncryptedMaps` implementation itself is
not under `src/`; the state is a `KeyManager<AccessRights>` plus a stable map
from `(MapId, MapKey)` to the encrypted value (spec section 3, "Encrypted
Value entry"). -/
structure EncryptedMaps where
  key_manager : KeyManagerState AccessRights
  mapkey_vals : List ((KeyId × List Nat) × List Nat)
deriving DecidableEq

/-- Modelled from the spec: the `EncryptedMaps::insert_encrypted_value`
implementation is not under `src/`; its write path is reconstructed from spec
sections 4.5 and 8 and from the tests in
`src/cdk/encrypted_maps/tests/tests.rs`
(`add_a_key_to_map_by_unauthorized_fails`,
`modify_a_key_value_in_map_by_unauthorized_fails`): a caller with no table
entry and not the owner is denied `"unauthorized"`, a caller whose entry
lacks the write capability is denied `"unauthorized user"`, and an authorized
write overwrites and returns the previous value. -/
def insert_encrypted_value (em : EncryptedMaps) (caller : Principal)
    (key_id : KeyId) (key : List Nat) (value : List Nat) :
    Except String (Option (List Nat)) × EncryptedMaps :=
  match ensure_user_can_read AccessRights.impl em.key_manager caller key_id with
  | .error e => (.error e, em)
  | .ok access_rights =>
      if access_rights.can_write then
        (.ok (mapGet em.mapkey_vals (key_id, key)),
         { em with mapkey_vals := mapInsert em.mapkey_vals (key_id, key) value })
      else (.error "unauthorized user", em)

/-- A `set_user_rights` call that grants to the key's owner is only allowed
from the owner themself (the pattern the boundary check `caller == key_id.0
&& caller == user` actually rejects). -/
def opOwnerSafe {T : Type} : Op T → Prop
  | .setUserRights caller key_id user _ => user = key_id.1 → caller = key_id.1
  | .removeUser _ _ _ => True

/-- Every share-index entry for `key_id` has a matching access-control table
entry (the direction of the structural pairing invariant needed for grantee
listing not to trap). -/
def sharedCovered {T : Type} (km : KeyManagerState T) (key_id : KeyId) : Prop :=
  ∀ user : Principal,
    (mapGet km.shared_keys (key_id, user)).isSome = true →
    (mapGet km.access_control (user, key_id)).isSome = true

/-! ## Map-model lemmas -/

theorem mapGet_filter_ne {α β : Type} [DecidableEq α] (m : List (α × β))
    (k k' : α) (h : k' ≠ k) :
    mapGet (m.filter (fun e => decide (e.1 ≠ k))) k' = mapGet m k' := by
  induction m with
  | nil => rfl
  | cons e rest ih =>
    by_cases he : e.1 = k
    · rw [show (e :: rest).filter (fun e => decide (e.1 ≠ k))
          = rest.filter (fun e => decide (e.1 ≠ k)) by simp [List.filter, he]]
      rw [ih]
      have : e.1 ≠ k' := by rw [he]; exact fun hk => h hk.symm
      simp [mapGet, this]
    · rw [show (e :: rest).filter (fun e => decide (e.1 ≠ k))
          = e :: rest.filter (fun e => decide (e.1 ≠ k)) by simp [List.filter, he]]
      simp only [mapGet, ih]

theorem mapGet_filter_self {α β : Type} [DecidableEq α] (m : List (α × β))
    (k : α) :
    mapGet (m.filter (fun e => decide (e.1 ≠ k))) k = none := by
  induction m with
  | nil => rfl
  | cons e rest ih =>
    by_cases he : e.1 = k
    · rw [show (e :: rest).filter (fun e => decide (e.1 ≠ k))
          = rest.filter (fun e => decide (e.1 ≠ k)) by simp [List.filter, he]]
      exact ih
    · rw [show (e :: rest).filter (fun e => decide (e.1 ≠ k))
          = e :: rest.filter (fun e => decide (e.1 ≠ k)) by simp [List.filter, he]]
      simp only [mapGet, if_neg he]
      exact ih

theorem mapGet_insert {α β : Type} [DecidableEq α] (m : List (α × β))
    (k k' : α) (v : β) :
    mapGet (mapInsert m k v) k' = if k' = k then some v else mapGet m k' := by
  by_cases h : k' = k
  · simp [mapInsert, mapGet, h]
  · have : ¬ (k = k') := fun hk => h hk.symm
    simp only [mapInsert, mapGet, if_neg this, if_neg h]
    exact mapGet_filter_ne m k k' h

theorem mapGet_remove {α β : Type} [DecidableEq α] (m : List (α × β))
    (k k' : α) :
    mapGet (mapRemove m k) k' = if k' = k then none else mapGet m k' := by
  by_cases h : k' = k
  · simp only [mapRemove, if_pos h, h]
    exact mapGet_filter_self m k
  · simp only [mapRemove, if_neg h]
    exact mapGet_filter_ne m k k' h

theorem mapGet_isSome_of_mem {α β : Type} [DecidableEq α]
    {m : List (α × β)} {e : α × β} (h : e ∈ m) :
    (mapGet m e.1).isSome = true := by
  induction m with
  | nil => cases h
  | cons a rest ih =>
    by_cases ha : a.1 = e.1
    · simp [mapGet, ha]
    · rcases List.mem_cons.mp h with h1 | h1
      · exact absurd (h1 ▸ rfl) ha
      · simp only [mapGet, if_neg ha]
        exact ih h1

/-! ## Operation state-transition lemmas -/

theorem set_user_rights_state {T : Type} (AC : AccessControlImpl T)
    (km : KeyManagerState T) (caller : Principal) (key_id : KeyId)
    (user : Principal) (access_rights : T) :
    (set_user_rights AC km caller key_id user access_rights).2 = km ∨
    (¬(caller = key_id.1 ∧ caller = user) ∧
      (set_user_rights AC km caller key_id user access_rights).2 =
        { km with
            shared_keys := mapInsert km.shared_keys (key_id, user) ()
            access_control :=
              mapInsert km.access_control (user, key_id) access_rights }) := by
  unfold set_user_rights
  cases ensure_user_can_set_user_rights AC km caller key_id with
  | error e => exact .inl rfl
  | ok t =>
    by_cases hC : caller = key_id.1 ∧ caller = user
    · simp only [if_pos hC]
      exact .inl trivial
    · simp only [if_neg hC]
      exact .inr ⟨hC, trivial⟩

theorem remove_user_state {T : Type} (AC : AccessControlImpl T)
    (km : KeyManagerState T) (caller : Principal) (key_id : KeyId)
    (user : Principal) :
    (remove_user AC km caller key_id user).2 = km ∨
    (remove_user AC km caller key_id user).2 =
      { km with
          shared_keys := mapRemove km.shared_keys (key_id, user)
          access_control := mapRemove km.access_control (user, key_id) } := by
  unfold remove_user
  cases ensure_user_can_set_user_rights AC km caller key_id with
  | error e => exact .inl rfl
  | ok t =>
    by_cases hC : caller = user ∧ caller = key_id.1
    · simp only [if_pos hC]
      exact .inl trivial
    · simp only [if_neg hC]
      exact .inr trivial

/-! ## Error characterization of the capability checks -/

theorem ensure_user_can_read_error_eq {T : Type} (AC : AccessControlImpl T)
    (km : KeyManagerState T) (user : Principal) (key_id : KeyId) (e : String)
    (h : ensure_user_can_read AC km user key_id = .error e) :
    e = "unauthorized" := by
  unfold ensure_user_can_read at h
  split at h
  · exact Except.noConfusion h
  · split at h
    · split at h
      · exact Except.noConfusion h
      · injection h with h2
        exact h2.symm
    · injection h with h2
      exact h2.symm

theorem ensure_user_can_write_error_eq {T : Type} (AC : AccessControlImpl T)
    (km : KeyManagerState T) (user : Principal) (key_id : KeyId) (e : String)
    (h : ensure_user_can_write AC km user key_id = .error e) :
    e = "unauthorized" := by
  unfold ensure_user_can_write at h
  split at h
  · exact Except.noConfusion h
  · split at h
    · split at h
      · exact Except.noConfusion h
      · injection h with h2
        exact h2.symm
    · injection h with h2
      exact h2.symm

theorem ensure_user_can_get_user_rights_error_eq {T : Type}
    (AC : AccessControlImpl T) (km : KeyManagerState T) (user : Principal)
    (key_id : KeyId) (e : String)
    (h : ensure_user_can_get_user_rights AC km user key_id = .error e) :
    e = "unauthorized" := by
  unfold ensure_user_can_get_user_rights at h
  split at h
  · exact Except.noConfusion h
  · split at h
    · split at h
      · exact Except.noConfusion h
      · injection h with h2
        exact h2.symm
    · injection h with h2
      exact h2.symm

theorem ensure_user_can_set_user_rights_error_eq {T : Type}
    (AC : AccessControlImpl T) (km : KeyManagerState T) (user : Principal)
    (key_id : KeyId) (e : String)
    (h : ensure_user_can_set_user_rights AC km user key_id = .error e) :
    e = "unauthorized" := by
  unfold ensure_user_can_set_user_rights at h
  split at h
  · exact Except.noConfusion h
  · split at h
    · split at h
      · exact Except.noConfusion h
      · injection h with h2
        exact h2.symm
    · injection h with h2
      exact h2.symm

theorem cdk_ensure_user_can_read_error_eq (km : CdkKeyManager)
    (user : Principal) (key_id : KeyId) (e : String)
    (h : cdk_ensure_user_can_read km user key_id = .error e) :
    e = "unauthorized" := by
  unfold cdk_ensure_user_can_read at h
  split at h
  · exact Except.noConfusion h
  · split at h
    · exact Except.noConfusion h
    · injection h with h2
      exact h2.symm

theorem cdk_ensure_user_can_manage_error_eq (km : CdkKeyManager)
    (user : Principal) (key_id : KeyId) (e : String)
    (h : cdk_ensure_user_can_manage km user key_id = .error e) :
    e = "unauthorized" := by
  unfold cdk_ensure_user_can_manage at h
  split at h
  · exact Except.noConfusion h
  · split at h
    · split at h
      · exact Except.noConfusion h
      · injection h with h2
        exact h2.symm
    · injection h with h2
      exact h2.symm

theorem except_ok_or_error {ε α : Type} (f : Except ε α) (e0 : ε)
    (hchar : ∀ e, f = .error e → e = e0) :
    (∃ t, f = .ok t) ∨ f = .error e0 := by
  cases f with
  | ok t => exact .inl ⟨t, rfl⟩
  | error e => exact .inr (by rw [hchar e rfl])

theorem except_error_of_not_ok {ε α : Type} (f : Except ε α) (e0 : ε)
    (hchar : ∀ e, f = .error e → e = e0) (h : ¬ ∃ t, f = .ok t) :
    f = .error e0 := by
  cases f with
  | ok t => exact absurd ⟨t, rfl⟩ h
  | error e => rw [hchar e rfl]

/-! ## Success characterization of the capability checks -/

theorem ensure_user_can_get_user_rights_ok_iff {T : Type}
    (AC : AccessControlImpl T) (km : KeyManagerState T) (user : Principal)
    (key_id : KeyId) :
    (∃ t, ensure_user_can_get_user_rights AC km user key_id = .ok t) ↔
      (user = key_id.1 ∨ ∃ ar, mapGet km.access_control (user, key_id) = some ar ∧
        AC.can_get_user_rights ar = true) := by
  unfold ensure_user_can_get_user_rights
  by_cases hc : user = key_id.1
  · simp [hc]
  · simp only [if_neg hc]
    cases hG : mapGet km.access_control (user, key_id) with
    | none => simp [hc]
    | some ar =>
      by_cases hp : AC.can_get_user_rights ar = true
      · simp [hc, hp]
      · simp [hc, hp]

theorem cdk_ensure_user_can_read_ok_iff (km : CdkKeyManager)
    (user : Principal) (key_id : KeyId) :
    (∃ t, cdk_ensure_user_can_read km user key_id = .ok t) ↔
      (user = key_id.1 ∨ (mapGet km.access_control (user, key_id)).isSome = true) := by
  unfold cdk_ensure_user_can_read
  by_cases hc : user = key_id.1
  · simp [hc]
  · simp only [if_neg hc]
    cases hG : mapGet km.access_control (user, key_id) with
    | none => simp [hc]
    | some ar => simp [hc]

/-- Under an entry (or ownership), the generic read check at `AccessRights`
resolves to `some`, because every `AccessRights` level can read. -/
theorem resolve_user_ok (km : KeyManagerState AccessRights) (user : Principal)
    (key_id : KeyId)
    (hac : user ≠ key_id.1 → (mapGet km.access_control (user, key_id)).isSome = true) :
    ∃ ar, (ensure_user_can_read AccessRights.impl km user key_id).toOption = some ar := by
  unfold ensure_user_can_read
  by_cases hc : user = key_id.1
  · exact ⟨.ReadWriteManage, by simp [hc, Except.toOption]; rfl⟩
  · obtain ⟨ar, har⟩ := Option.isSome_iff_exists.mp (hac hc)
    refine ⟨ar, ?_⟩
    simp only [if_neg hc, har]
    cases ar <;> rfl

/-- cdk analogue: any entry (or ownership) resolves to `some`. -/
theorem cdk_resolve_user_ok (km : CdkKeyManager) (user : Principal)
    (key_id : KeyId)
    (hac : user ≠ key_id.1 → (mapGet km.access_control (user, key_id)).isSome = true) :
    ∃ ar, (cdk_ensure_user_can_read km user key_id).toOption = some ar := by
  unfold cdk_ensure_user_can_read
  by_cases hc : user = key_id.1
  · exact ⟨.ReadWriteManage, by simp [hc, Except.toOption]⟩
  · obtain ⟨ar, har⟩ := Option.isSome_iff_exists.mp (hac hc)
    refine ⟨ar, ?_⟩
    simp only [if_neg hc, har]
    rfl

theorem mapM_ok {α β : Type} (f : α → Except String β) :
    ∀ l : List α, (∀ x ∈ l, ∃ y, f x = .ok y) → ∃ l', l.mapM f = .ok l' := by
  intro l
  induction l with
  | nil => exact fun _ => ⟨[], rfl⟩
  | cons a rest ih =>
    intro h
    obtain ⟨y, hy⟩ := h a (List.mem_cons_self a rest)
    obtain ⟨l', hl'⟩ := ih (fun x hx => h x (List.mem_cons_of_mem a hx))
    refine ⟨y :: l', ?_⟩
    rw [List.mapM_cons, hy, hl']
    rfl

/-! ## Computation lemmas for grantee listing -/

theorem get_shared_user_access_for_key_of_error {T : Type}
    (AC : AccessControlImpl T) (km : KeyManagerState T) (caller : Principal)
    (key_id : KeyId) (e : String)
    (h : ensure_user_can_get_user_rights AC km caller key_id = .error e) :
    get_shared_user_access_for_key AC km caller key_id = .error e := by
  unfold get_shared_user_access_for_key
  rw [h]

theorem get_shared_user_access_for_key_of_ok {T : Type}
    (AC : AccessControlImpl T) (km : KeyManagerState T) (caller : Principal)
    (key_id : KeyId) (t : T)
    (h : ensure_user_can_get_user_rights AC km caller key_id = .ok t) :
    get_shared_user_access_for_key AC km caller key_id =
      ((km.shared_keys.filter (fun e => decide (e.1.1 = key_id))).map
        (fun e => e.1.2)).mapM (fun user =>
          match get_user_rights AC km caller key_id user with
          | .error e => .error e
          | .ok (some access_rights) => .ok (user, access_rights)
          | .ok none => .error "trap: always some access rights") := by
  unfold get_shared_user_access_for_key
  rw [h]

theorem get_user_rights_of_ok {T : Type} (AC : AccessControlImpl T)
    (km : KeyManagerState T) (caller : Principal) (key_id : KeyId)
    (user : Principal) (t : T)
    (h : ensure_user_can_get_user_rights AC km caller key_id = .ok t) :
    get_user_rights AC km caller key_id user =
      .ok (ensure_user_can_read AC km user key_id).toOption := by
  unfold get_user_rights
  rw [h]

theorem cdk_get_shared_user_access_for_key_of_error (km : CdkKeyManager)
    (caller : Principal) (key_id : KeyId) (e : String)
    (h : cdk_ensure_user_can_read km caller key_id = .error e) :
    cdk_get_shared_user_access_for_key km caller key_id = .error e := by
  unfold cdk_get_shared_user_access_for_key
  rw [h]

theorem cdk_get_shared_user_access_for_key_of_ok (km : CdkKeyManager)
    (caller : Principal) (key_id : KeyId) (t : AccessRights)
    (h : cdk_ensure_user_can_read km caller key_id = .ok t) :
    cdk_get_shared_user_access_for_key km caller key_id =
      ((km.shared_keys.filter (fun e => decide (e.1.1 = key_id))).map
        (fun e => e.1.2)).mapM (fun user =>
          match cdk_get_user_rights km caller key_id user with
          | .error e => .error e
          | .ok (some access_rights) => .ok (user, access_rights)
          | .ok none => .error "trap: always some access rights") := by
  unfold cdk_get_shared_user_access_for_key
  rw [h]

theorem cdk_get_user_rights_of_ok (km : CdkKeyManager) (caller : Principal)
    (key_id : KeyId) (user : Principal) (t : AccessRights)
    (h : cdk_ensure_user_can_read km caller key_id = .ok t) :
    cdk_get_user_rights km caller key_id user =
      .ok (cdk_ensure_user_can_read km user key_id).toOption := by
  unfold cdk_get_user_rights
  rw [h]

/-! ## Reachability machinery -/

theorem runOps_cons {T : Type} (AC : AccessControlImpl T) (op : Op T)
    (rest : List (Op T)) (km : KeyManagerState T) :
    runOps AC (op :: rest) km = runOps AC rest (applyOp AC km op) := rfl

theorem runOps_preserves {T : Type} (AC : AccessControlImpl T)
    (P : KeyManagerState T → Prop) (Q : Op T → Prop)
    (hstep : ∀ km op, Q op → P km → P (applyOp AC km op)) :
    ∀ (ops : List (Op T)) (km : KeyManagerState T),
      (∀ op ∈ ops, Q op) → P km → P (runOps AC ops km) := by
  intro ops
  induction ops with
  | nil => exact fun km _ h => h
  | cons op rest ih =>
    intro km hQ h
    rw [runOps_cons]
    exact ih (applyOp AC km op)
      (fun o ho => hQ o (List.mem_cons_of_mem op ho))
      (hstep km op (hQ op (List.mem_cons_self op rest)) h)

/-- One step preserves the pairing of the two maps. -/
theorem applyOp_pairing {T : Type} (AC : AccessControlImpl T)
    (km : KeyManagerState T) (op : Op T)
    (ih : ∀ (u : Principal) (k : KeyId),
      (mapGet km.access_control (u, k)).isSome = true ↔
      (mapGet km.shared_keys (k, u)).isSome = true) :
    ∀ (u : Principal) (k : KeyId),
      (mapGet (applyOp AC km op).access_control (u, k)).isSome = true ↔
      (mapGet (applyOp AC km op).shared_keys (k, u)).isSome = true := by
  intro u k
  cases op with
  | setUserRights c kid u0 ar =>
    rcases set_user_rights_state AC km c kid u0 ar with hst | ⟨_, hst⟩
    · simp only [applyOp]
      rw [hst]
      exact ih u k
    · simp only [applyOp]
      rw [hst]
      simp only [mapGet_insert]
      by_cases h1 : u = u0 ∧ k = kid
      · rw [if_pos (by rw [h1.1, h1.2]), if_pos (by rw [h1.1, h1.2])]
        simp
      · have hA : ¬((u, k) = (u0, kid)) :=
          fun hh => h1 ⟨congrArg Prod.fst hh, congrArg Prod.snd hh⟩
        have hB : ¬((k, u) = (kid, u0)) :=
          fun hh => h1 ⟨congrArg Prod.snd hh, congrArg Prod.fst hh⟩
        rw [if_neg hA, if_neg hB]
        exact ih u k
  | removeUser c kid u0 =>
    rcases remove_user_state AC km c kid u0 with hst | hst
    · simp only [applyOp]
      rw [hst]
      exact ih u k
    · simp only [applyOp]
      rw [hst]
      simp only [mapGet_remove]
      by_cases h1 : u = u0 ∧ k = kid
      · rw [if_pos (by rw [h1.1, h1.2]), if_pos (by rw [h1.1, h1.2])]
        exact Iff.rfl
      · have hA : ¬((u, k) = (u0, kid)) :=
          fun hh => h1 ⟨congrArg Prod.fst hh, congrArg Prod.snd hh⟩
        have hB : ¬((k, u) = (kid, u0)) :=
          fun hh => h1 ⟨congrArg Prod.snd hh, congrArg Prod.fst hh⟩
        rw [if_neg hA, if_neg hB]
        exact ih u k

/-- One step preserves "the owner is never a grantee", provided the step does
not grant to the owner from a third party. -/
theorem applyOp_owner_safe {T : Type} (AC : AccessControlImpl T)
    (km : KeyManagerState T) (op : Op T) (hop : opOwnerSafe op)
    (ih : ∀ (u : Principal) (k : KeyId), u = k.1 →
      mapGet km.access_control (u, k) = none) :
    ∀ (u : Principal) (k : KeyId), u = k.1 →
      mapGet (applyOp AC km op).access_control (u, k) = none := by
  intro u k hu
  cases op with
  | setUserRights c kid u0 ar =>
    rcases set_user_rights_state AC km c kid u0 ar with hst | ⟨hC, hst⟩
    · simp only [applyOp]
      rw [hst]
      exact ih u k hu
    · simp only [applyOp]
      rw [hst]
      simp only [mapGet_insert]
      by_cases he : (u, k) = ((u0, kid) : Principal × KeyId)
      · exfalso
        have h1 : u = u0 := congrArg Prod.fst he
        have h2 : k = kid := congrArg Prod.snd he
        have hOwner : u0 = kid.1 := by rw [← h1, ← h2]; exact hu
        have hc1 : c = kid.1 := hop hOwner
        exact hC ⟨hc1, by rw [hc1, hOwner]⟩
      · rw [if_neg he]
        exact ih u k hu
  | removeUser c kid u0 =>
    rcases remove_user_state AC km c kid u0 with hst | hst
    · simp only [applyOp]
      rw [hst]
      exact ih u k hu
    · simp only [applyOp]
      rw [hst]
      rw [mapGet_remove]
      by_cases he : (u, k) = ((u0, kid) : Principal × KeyId)
      · rw [if_pos he]
      · rw [if_neg he]
        exact ih u k hu

/-! ## Claim theorems -/

/-- C4: for every user, KeyId, and table state, if the user equals the owner
component of the KeyId then all four authorization checks succeed and return
the maximal permission level `owner_rights` (`ReadWriteManage` for the
concrete `AccessRights`), regardless of the access-control table. -/
theorem owner_checks_return_owner_rights {T : Type} (AC : AccessControlImpl T)
    (km : KeyManagerState T) (user : Principal) (key_id : KeyId)
    (h : user = key_id.1) :
    ensure_user_can_read AC km user key_id = .ok AC.owner_rights ∧
    ensure_user_can_write AC km user key_id = .ok AC.owner_rights ∧
    ensure_user_can_get_user_rights AC km user key_id = .ok AC.owner_rights ∧
    ensure_user_can_set_user_rights AC km user key_id = .ok AC.owner_rights := by
  unfold ensure_user_can_read ensure_user_can_write
    ensure_user_can_get_user_rights ensure_user_can_set_user_rights
  simp [h]

/-- Witness for C4 at a concrete owner and a table that even contains a
(weaker) entry for the owner: the checks still return `ReadWriteManage`. -/
theorem owner_checks_return_owner_rights_witness :
    (([0] : Principal) = ((([0], []) : KeyId)).1) ∧
    ensure_user_can_read AccessRights.impl
      { domain_separator := "d"
        access_control := [(([0], ([0], [])), AccessRights.Read)]
        shared_keys := [] } [0] ([0], []) = .ok .ReadWriteManage ∧
    ensure_user_can_set_user_rights AccessRights.impl
      { domain_separator := "d"
        access_control := [(([0], ([0], [])), AccessRights.Read)]
        shared_keys := [] } [0] ([0], []) = .ok .ReadWriteManage := by
  refine ⟨rfl, ?_, ?_⟩
  · exact (owner_checks_return_owner_rights AccessRights.impl
      { domain_separator := "d"
        access_control := [(([0], ([0], [])), AccessRights.Read)]
        shared_keys := [] } [0] ([0], []) rfl).1
  · exact (owner_checks_return_owner_rights AccessRights.impl
      { domain_separator := "d"
        access_control := [(([0], ([0], [])), AccessRights.Read)]
        shared_keys := [] } [0] ([0], []) rfl).2.2.2

/-- C8: when caller = grantee = the KeyId's owner, `set_user_rights` and
`remove_user` return their distinct errors (different from the uniform
"unauthorized" denial) and leave the whole broker state (access-control
table and shared-keys index) unchanged. -/
theorem owner_self_rights_modification_distinct_errors {T : Type}
    (AC : AccessControlImpl T) (km : KeyManagerState T) (key_id : KeyId)
    (access_rights : T) :
    set_user_rights AC km key_id.1 key_id key_id.1 access_rights =
      (.error "cannot change key owner's user rights", km) ∧
    remove_user AC km key_id.1 key_id key_id.1 =
      (.error "cannot remove key owner", km) ∧
    ("cannot change key owner's user rights" : String) ≠ "unauthorized" ∧
    ("cannot remove key owner" : String) ≠ "unauthorized" := by
  refine ⟨?_, ?_, by decide, by decide⟩
  · unfold set_user_rights ensure_user_can_set_user_rights
    simp
  · unfold remove_user ensure_user_can_set_user_rights
    simp

/-- C9: the broker singleton has an initialize-once lifecycle: initializing
the empty cell succeeds, and any second initialization attempt returns
`AlreadyInitialized` and leaves the existing state untouched. -/
theorem try_init_initialize_once :
    (try_init none).1 = .ok () ∧
    (∀ km : CdkKeyManager,
      try_init (some km) = (.error .AlreadyInitialized, some km)) ∧
    (try_init (try_init none).2).1 = .error .AlreadyInitialized := by
  exact ⟨rfl, fun km => rfl, rfl⟩

/-- C10: the cdk read check (which accepts any stored entry) and the generic
read check at `AccessRights` (which additionally tests `can_read`) are
extensionally equal, because every `AccessRights` level satisfies
`can_read`. -/
theorem cdk_and_generic_read_check_agree (st : CdkKeyManager) (d : String)
    (user : Principal) (key_id : KeyId) :
    cdk_ensure_user_can_read st user key_id =
      ensure_user_can_read AccessRights.impl
        { domain_separator := d
          access_control := st.access_control
          shared_keys := st.shared_keys } user key_id := by
  unfold cdk_ensure_user_can_read ensure_user_can_read
  by_cases h : user = key_id.1
  · simp [h]
    rfl
  · simp only [if_neg h]
    cases hg : mapGet st.access_control (user, key_id) with
    | none => rfl
    | some ar => cases ar <;> rfl

/-- The value-store write either succeeds, or is denied `"unauthorized"`
(no entry, not owner), or is denied `"unauthorized user"` (entry without the
write capability). -/
theorem insert_encrypted_value_cases (em : EncryptedMaps) (caller : Principal)
    (key_id : KeyId) (key value : List Nat) :
    (∃ t, (insert_encrypted_value em caller key_id key value).1 = .ok t) ∨
    (insert_encrypted_value em caller key_id key value).1 = .error "unauthorized" ∨
    (insert_encrypted_value em caller key_id key value).1 = .error "unauthorized user" := by
  unfold insert_encrypted_value
  cases hE : ensure_user_can_read AccessRights.impl em.key_manager caller key_id with
  | error e0 =>
    have he0 : e0 = "unauthorized" :=
      ensure_user_can_read_error_eq AccessRights.impl em.key_manager caller key_id e0 hE
    rw [he0]
    exact .inr (.inl rfl)
  | ok ar =>
    cases har : ar.can_write with
    | false =>
      refine .inr (.inr ?_)
      simp [har]
    | true =>
      refine .inl ⟨mapGet em.mapkey_vals (key_id, key), ?_⟩
      simp [har]

/-- C3 (amended): every failed capability check in the key-manager layer —
the four generic checks and the two cdk checks — returns the single uniform
error "unauthorized", so through those checks a caller cannot distinguish
"no entry" from "entry with insufficient rights"; the value-store write
path, however, has exactly the two denials "unauthorized" and
"unauthorized user". -/
theorem capability_checks_ok_or_unauthorized {T : Type}
    (AC : AccessControlImpl T) (km : KeyManagerState T) (ckm : CdkKeyManager)
    (em : EncryptedMaps) (user : Principal) (key_id : KeyId)
    (key value : List Nat) :
    ((∃ t, ensure_user_can_read AC km user key_id = .ok t) ∨
      ensure_user_can_read AC km user key_id = .error "unauthorized") ∧
    ((∃ t, ensure_user_can_write AC km user key_id = .ok t) ∨
      ensure_user_can_write AC km user key_id = .error "unauthorized") ∧
    ((∃ t, ensure_user_can_get_user_rights AC km user key_id = .ok t) ∨
      ensure_user_can_get_user_rights AC km user key_id = .error "unauthorized") ∧
    ((∃ t, ensure_user_can_set_user_rights AC km user key_id = .ok t) ∨
      ensure_user_can_set_user_rights AC km user key_id = .error "unauthorized") ∧
    ((∃ t, cdk_ensure_user_can_read ckm user key_id = .ok t) ∨
      cdk_ensure_user_can_read ckm user key_id = .error "unauthorized") ∧
    ((∃ t, cdk_ensure_user_can_manage ckm user key_id = .ok t) ∨
      cdk_ensure_user_can_manage ckm user key_id = .error "unauthorized") ∧
    ((∃ t, (insert_encrypted_value em user key_id key value).1 = .ok t) ∨
      (insert_encrypted_value em user key_id key value).1 = .error "unauthorized" ∨
      (insert_encrypted_value em user key_id key value).1 = .error "unauthorized user") := by
  refine ⟨?_, ?_, ?_, ?_, ?_, ?_, insert_encrypted_value_cases em user key_id key value⟩
  · exact except_ok_or_error _ _
      (fun e h => ensure_user_can_read_error_eq AC km user key_id e h)
  · exact except_ok_or_error _ _
      (fun e h => ensure_user_can_write_error_eq AC km user key_id e h)
  · exact except_ok_or_error _ _
      (fun e h => ensure_user_can_get_user_rights_error_eq AC km user key_id e h)
  · exact except_ok_or_error _ _
      (fun e h => ensure_user_can_set_user_rights_error_eq AC km user key_id e h)
  · exact except_ok_or_error _ _
      (fun e h => cdk_ensure_user_can_read_error_eq ckm user key_id e h)
  · exact except_ok_or_error _ _
      (fun e h => cdk_ensure_user_can_manage_error_eq ckm user key_id e h)

/-- C3 counterexample: the value-store write path distinguishes "no entry"
from "entry with insufficient rights". After the owner `[0]` grants `Read`
to `[1]` on the key `([0], [])`, a write by `[1]` is denied
`"unauthorized user"`, while a write by the stranger `[2]` is denied
`"unauthorized"`, and the two error values differ — exactly the scenario of
the repository test `add_a_key_to_map_by_unauthorized_fails`. -/
theorem value_store_denials_distinguishable :
    (insert_encrypted_value
      { key_manager := (set_user_rights AccessRights.impl
          (KeyManager.init AccessRights "d") [0] ([0], []) [1] .Read).2
        mapkey_vals := [] } [1] ([0], []) [] []).1 = .error "unauthorized user" ∧
    (insert_encrypted_value
      { key_manager := (set_user_rights AccessRights.impl
          (KeyManager.init AccessRights "d") [0] ([0], []) [1] .Read).2
        mapkey_vals := [] } [2] ([0], []) [] []).1 = .error "unauthorized" ∧
    ("unauthorized user" : String) ≠ "unauthorized" := by
  refine ⟨rfl, rfl, by decide⟩

/-- C6: the derivation input is the one-byte length of the owner identifier,
the owner bytes, then the raw key-name bytes; for owner identifiers of at
most 255 bytes the encoding is injective over (owner, key name) pairs. -/
theorem key_id_to_vetkd_input_injective (p1 n1 p2 n2 : List Nat)
    (h1 : p1.length ≤ 255) (h2 : p2.length ≤ 255)
    (h : key_id_to_vetkd_input p1 n1 = key_id_to_vetkd_input p2 n2) :
    p1 = p2 ∧ n1 = n2 := by
  unfold key_id_to_vetkd_input at h
  injection h with hLen hRest
  have e1 : p1.length % 256 = p1.length :=
    Nat.mod_eq_of_lt (Nat.lt_of_le_of_lt h1 (by norm_num))
  have e2 : p2.length % 256 = p2.length :=
    Nat.mod_eq_of_lt (Nat.lt_of_le_of_lt h2 (by norm_num))
  rw [e1, e2] at hLen
  exact List.append_inj hRest hLen

/-- Witness for C6: the encodings of ("AB","C") and ("A","BC") differ even
though the concatenations of owner and name agree, and equal encodings of
equal pairs force equal components. -/
theorem key_id_to_vetkd_input_injective_witness :
    (([65, 66] : List Nat).length ≤ 255) ∧
    (([65] : List Nat).length ≤ 255) ∧
    key_id_to_vetkd_input [65, 66] [67] ≠ key_id_to_vetkd_input [65] [66, 67] ∧
    (([65, 66] : List Nat) = [65, 66] ∧ ([67] : List Nat) = [67]) := by
  refine ⟨by decide, by decide, ?_, ?_⟩
  · intro h
    exact absurd
      (key_id_to_vetkd_input_injective [65, 66] [67] [65] [66, 67]
        (by decide) (by decide) h).1 (by decide)
  · exact key_id_to_vetkd_input_injective [65, 66] [67] [65, 66] [67]
      (by decide) (by decide) rfl

/-- C2: from an empty broker, after any sequence of `set_user_rights` and
`remove_user` calls (hence after every individual operation, successful or
failed, since every prefix is such a sequence), the access-control table and
the shared-keys index are in bijective correspondence: `(user, key_id)` is
in `access_control` iff `(key_id, user)` is in `shared_keys`. -/
theorem access_control_shared_keys_paired {T : Type}
    (AC : AccessControlImpl T) (ops : List (Op T)) (d : String)
    (user : Principal) (key_id : KeyId) :
    ((mapGet (runOps AC ops (KeyManager.init T d)).access_control
        (user, key_id)).isSome = true) ↔
    ((mapGet (runOps AC ops (KeyManager.init T d)).shared_keys
        (key_id, user)).isSome = true) := by
  have h := runOps_preserves AC
    (fun km => ∀ (u : Principal) (k : KeyId),
      (mapGet km.access_control (u, k)).isSome = true ↔
      (mapGet km.shared_keys (k, u)).isSome = true)
    (fun _ => True)
    (fun km op _ ih => applyOp_pairing AC km op ih)
    ops (KeyManager.init T d) (fun _ _ => trivial)
    (fun u k => by simp [KeyManager.init, mapGet])
  exact h user key_id

/-- C1 counterexample: an owner-grantee entry is reachable from the empty
broker. The owner `[0]` grants manage rights to `[1]`; then `[1]` calls
`set_user_rights` with grantee `[0]` — the boundary check only rejects
caller = grantee = owner, so the grant goes through and the table now holds
an entry whose grantee `[0]` equals the owner component of its KeyId. -/
theorem manager_can_create_owner_grantee_entry :
    mapGet (runOps AccessRights.impl
      [Op.setUserRights [0] ([0], []) [1] .ReadWriteManage,
       Op.setUserRights [1] ([0], []) [0] .Read]
      (KeyManager.init AccessRights "d")).access_control ([0], ([0], [])) =
      some .Read ∧
    (([0] : Principal) = ((([0], []) : KeyId)).1) := ⟨rfl, rfl⟩

/-- C1 (amended): for every state reachable from an empty broker by
`set_user_rights` / `remove_user` sequences in which no `set_user_rights`
call grants to the KeyId's owner from a caller other than that owner, no
access-control entry's grantee equals the owner component of its KeyId; in
particular the owner can never create a self-entry, since the boundary
check rejects caller = grantee = owner. -/
theorem owner_never_grantee_under_safe_grants {T : Type}
    (AC : AccessControlImpl T) (ops : List (Op T)) (d : String)
    (hsafe : ∀ op ∈ ops, opOwnerSafe op)
    (user : Principal) (key_id : KeyId) (h : user = key_id.1) :
    mapGet (runOps AC ops (KeyManager.init T d)).access_control
      (user, key_id) = none := by
  have hrun := runOps_preserves AC
    (fun km => ∀ (u : Principal) (k : KeyId), u = k.1 →
      mapGet km.access_control (u, k) = none)
    opOwnerSafe
    (fun km op hq ih => applyOp_owner_safe AC km op hq ih)
    ops (KeyManager.init T d) hsafe
    (fun u k _ => rfl)
  exact hrun user key_id h

/-- Witness for C1 (amended): after an owner-only grant/revoke sequence the
owner holds no table entry for their own key. -/
theorem owner_never_grantee_under_safe_grants_witness :
    mapGet (runOps AccessRights.impl
      [Op.setUserRights [0] ([0], []) [1] .ReadWriteManage,
       Op.removeUser [0] ([0], []) [1]]
      (KeyManager.init AccessRights "d")).access_control
      ([0], ([0], [])) = none := by
  refine owner_never_grantee_under_safe_grants AccessRights.impl _ "d"
    ?_ [0] ([0], []) rfl
  intro op hop
  simp only [List.mem_cons, List.mem_singleton, List.not_mem_nil,
    or_false] at hop
  rcases hop with rfl | rfl
  · exact fun _ => rfl
  · exact trivial

/-- C5: `get_encrypted_vetkey` never mutates the broker state, runs the read
check before building the derivation request, returns the uniform
"unauthorized" error (and builds no request) when the check fails, and
issues a request only when the check succeeded. -/
theorem get_encrypted_vetkey_check_first_no_mutation {T : Type}
    (AC : AccessControlImpl T) (km : KeyManagerState T) (caller : Principal)
    (key_id : KeyId) (transport_key : List Nat) :
    (get_encrypted_vetkey AC km caller key_id transport_key).2 = km ∧
    (∀ e, ensure_user_can_read AC km caller key_id = .error e →
      (get_encrypted_vetkey AC km caller key_id transport_key).1 =
        .error "unauthorized") ∧
    (∀ r, (get_encrypted_vetkey AC km caller key_id transport_key).1 = .ok r →
      ∃ t, ensure_user_can_read AC km caller key_id = .ok t) := by
  refine ⟨?_, ?_, ?_⟩
  · unfold get_encrypted_vetkey
    cases ensure_user_can_read AC km caller key_id <;> rfl
  · intro e hE
    unfold get_encrypted_vetkey
    rw [hE, ensure_user_can_read_error_eq AC km caller key_id e hE]
  · intro r hr
    cases hE : ensure_user_can_read AC km caller key_id with
    | ok t => exact ⟨t, rfl⟩
    | error e =>
      exfalso
      unfold get_encrypted_vetkey at hr
      rw [hE] at hr
      exact Except.noConfusion hr

/-- Witness for C5: a caller without read access is denied without a request
being built, and the state is returned unchanged. -/
theorem get_encrypted_vetkey_check_first_no_mutation_witness :
    (get_encrypted_vetkey AccessRights.impl (KeyManager.init AccessRights "d")
      [1] ([0], []) []).2 = KeyManager.init AccessRights "d" ∧
    (get_encrypted_vetkey AccessRights.impl (KeyManager.init AccessRights "d")
      [1] ([0], []) []).1 = .error "unauthorized" :=
  ⟨(get_encrypted_vetkey_check_first_no_mutation AccessRights.impl
      (KeyManager.init AccessRights "d") [1] ([0], []) []).1,
   (get_encrypted_vetkey_check_first_no_mutation AccessRights.impl
      (KeyManager.init AccessRights "d") [1] ([0], []) []).2.1
      "unauthorized" rfl⟩

/-- C7 counterexample: the cdk `get_shared_user_access_for_key` is gated on
the read check only. A caller holding a mere `Read` entry (not the owner,
and without the get-rights capability) still succeeds. -/
theorem cdk_grantee_listing_allows_reader :
    cdk_get_shared_user_access_for_key
      { access_control := [(([1], ([0], [])), AccessRights.Read)]
        shared_keys := [((([0], []), [1]), ())] } [1] ([0], []) =
      .ok [([1], .Read)] ∧
    (([1] : Principal) ≠ ((([0], []) : KeyId)).1) ∧
    AccessRights.can_get_user_rights .Read = false := by
  refine ⟨rfl, by decide, rfl⟩

/-- C7 (amended): on states whose share index is covered by the table, the
generic `get_shared_user_access_for_key` succeeds iff the caller is the
owner or holds an entry with the get-rights capability, and returns the
uniform "unauthorized" error otherwise; the cdk version is instead gated on
read access and succeeds iff the caller is the owner or holds any table
entry. -/
theorem grantee_listing_capability_characterization
    (km : KeyManagerState AccessRights) (caller : Principal) (key_id : KeyId)
    (hwf : sharedCovered km key_id) :
    ((∃ l, get_shared_user_access_for_key AccessRights.impl km caller key_id =
        .ok l) ↔
      (caller = key_id.1 ∨
        ∃ ar, mapGet km.access_control (caller, key_id) = some ar ∧
          AccessRights.can_get_user_rights ar = true)) ∧
    (¬(caller = key_id.1 ∨
        ∃ ar, mapGet km.access_control (caller, key_id) = some ar ∧
          AccessRights.can_get_user_rights ar = true) →
      get_shared_user_access_for_key AccessRights.impl km caller key_id =
        .error "unauthorized") ∧
    ((∃ l, cdk_get_shared_user_access_for_key
        { access_control := km.access_control, shared_keys := km.shared_keys }
        caller key_id = .ok l) ↔
      (caller = key_id.1 ∨
        (mapGet km.access_control (caller, key_id)).isSome = true)) := by
  have hchar := fun e h => ensure_user_can_get_user_rights_error_eq
    AccessRights.impl km caller key_id e h
  refine ⟨⟨?_, ?_⟩, ?_, ⟨?_, ?_⟩⟩
  · rintro ⟨l, hl⟩
    by_contra hR
    have hnot : ¬ ∃ t, ensure_user_can_get_user_rights AccessRights.impl km
        caller key_id = .ok t :=
      fun hok => hR ((ensure_user_can_get_user_rights_ok_iff
        AccessRights.impl km caller key_id).mp hok)
    have hErr := except_error_of_not_ok _ "unauthorized" hchar hnot
    rw [get_shared_user_access_for_key_of_error AccessRights.impl km caller
      key_id "unauthorized" hErr] at hl
    exact Except.noConfusion hl
  · intro hR
    obtain ⟨t, ht⟩ := (ensure_user_can_get_user_rights_ok_iff
      AccessRights.impl km caller key_id).mpr hR
    rw [get_shared_user_access_for_key_of_ok AccessRights.impl km caller
      key_id t ht]
    apply mapM_ok
    intro user hu
    simp only [List.mem_map] at hu
    obtain ⟨e, he, heq⟩ := hu
    obtain ⟨hmem, hkey⟩ := List.mem_filter.mp he
    have hkey2 : e.1.1 = key_id := of_decide_eq_true hkey
    have hsk : (mapGet km.shared_keys (key_id, user)).isSome = true := by
      have h0 := mapGet_isSome_of_mem hmem
      have hE1 : e.1 = (key_id, user) := by rw [← hkey2, ← heq]
      rw [hE1] at h0
      exact h0
    obtain ⟨ar, har⟩ := resolve_user_ok km user key_id (fun _ => hwf user hsk)
    have hg : get_user_rights AccessRights.impl km caller key_id user =
        .ok (some ar) := by
      rw [get_user_rights_of_ok AccessRights.impl km caller key_id user t ht,
        har]
    exact ⟨(user, ar), by simp only [hg]⟩
  · intro hR
    have hnot : ¬ ∃ t, ensure_user_can_get_user_rights AccessRights.impl km
        caller key_id = .ok t :=
      fun hok => hR ((ensure_user_can_get_user_rights_ok_iff
        AccessRights.impl km caller key_id).mp hok)
    have hErr := except_error_of_not_ok _ "unauthorized" hchar hnot
    exact get_shared_user_access_for_key_of_error AccessRights.impl km caller
      key_id "unauthorized" hErr
  · rintro ⟨l, hl⟩
    by_contra hR
    have hnot : ¬ ∃ t, cdk_ensure_user_can_read
        { access_control := km.access_control, shared_keys := km.shared_keys }
        caller key_id = .ok t :=
      fun hok => hR ((cdk_ensure_user_can_read_ok_iff _ caller key_id).mp hok)
    have hErr := except_error_of_not_ok _ "unauthorized"
      (fun e h => cdk_ensure_user_can_read_error_eq _ caller key_id e h) hnot
    rw [cdk_get_shared_user_access_for_key_of_error _ caller key_id
      "unauthorized" hErr] at hl
    exact Except.noConfusion hl
  · intro hR
    obtain ⟨t, ht⟩ := (cdk_ensure_user_can_read_ok_iff
      { access_control := km.access_control, shared_keys := km.shared_keys }
      caller key_id).mpr hR
    rw [cdk_get_shared_user_access_for_key_of_ok _ caller key_id t ht]
    apply mapM_ok
    intro user hu
    simp only [List.mem_map] at hu
    obtain ⟨e, he, heq⟩ := hu
    obtain ⟨hmem, hkey⟩ := List.mem_filter.mp he
    have hkey2 : e.1.1 = key_id := of_decide_eq_true hkey
    have hsk : (mapGet km.shared_keys (key_id, user)).isSome = true := by
      have h0 := mapGet_isSome_of_mem hmem
      have hE1 : e.1 = (key_id, user) := by rw [← hkey2, ← heq]
      rw [hE1] at h0
      exact h0
    obtain ⟨ar, har⟩ := cdk_resolve_user_ok
      { access_control := km.access_control, shared_keys := km.shared_keys }
      user key_id (fun _ => hwf user hsk)
    have hg : cdk_get_user_rights
        { access_control := km.access_control, shared_keys := km.shared_keys }
        caller key_id user = .ok (some ar) := by
      rw [cdk_get_user_rights_of_ok _ caller key_id user t ht, har]
    exact ⟨(user, ar), by simp only [hg]⟩

/-- Witness for C7 (amended): on the empty broker (trivially covered), the
owner's grantee listing succeeds. -/
theorem grantee_listing_capability_characterization_witness :
    ∃ l, get_shared_user_access_for_key AccessRights.impl
      (KeyManager.init AccessRights "d") [0] ([0], []) = .ok l := by
  refine ((grantee_listing_capability_characterization
    (KeyManager.init AccessRights "d") [0] ([0], []) ?_).1).mpr (.inl rfl)
  intro u h
  simp [KeyManager.init, mapGet] at h

end VetKD
